import Mathlib

/-!
Verification of the hash-chained classroom ledger in `src/app.py`.

The development shallowly embeds the `Blockchain` class and the module-level
helper functions of `app.py` into Lean:

* Python numbers (`float` amounts and timestamps) are modelled as rationals
  `ℚ`; Python `int` values as `Int`/`Nat`.  IEEE-754 rounding is abstracted.
* `hashlib.sha256(...).hexdigest()` is implemented as a full executable
  SHA-256 (FIPS 180-4) over byte lists, with bytes and 32-bit words as `Nat`
  reduced mod `2 ^ 32` where the algorithm requires wrap-around.
* `json.dumps(block, sort_keys=True)` is implemented as a serializer over a
  small Python-JSON value type; the objects the program ever serializes are
  emitted with their keys already in sorted (codepoint) order, matching what
  `sort_keys=True` produces.
* Stateful methods become pure functions from the old `Blockchain` record to
  the new one; `time.time()` results are threaded in as explicit arguments.
-/

namespace App

/-- 32-bit wrap-around: Python/C words reduced mod `2 ^ 32`. -/
def w32 (n : Nat) : Nat := n % 4294967296

/-- Right rotation of a 32-bit word by `n` places. -/
def rotr32 (n x : Nat) : Nat := w32 ((x >>> n) ||| (x <<< (32 - n)))

/-- Bitwise complement of a 32-bit word. -/
def not32 (x : Nat) : Nat := x ^^^ 4294967295

/-- SHA-256 choice function. -/
def chooseFn (e f g : Nat) : Nat := (e &&& f) ^^^ (not32 e &&& g)

/-- SHA-256 majority function. -/
def majFn (a b c : Nat) : Nat := (a &&& b) ^^^ (a &&& c) ^^^ (b &&& c)

/-- SHA-256 big sigma 0. -/
def sigmaBig0 (a : Nat) : Nat := rotr32 2 a ^^^ rotr32 13 a ^^^ rotr32 22 a

/-- SHA-256 big sigma 1. -/
def sigmaBig1 (e : Nat) : Nat := rotr32 6 e ^^^ rotr32 11 e ^^^ rotr32 25 e

/-- SHA-256 small sigma 0. -/
def sigmaSmall0 (x : Nat) : Nat := rotr32 7 x ^^^ rotr32 18 x ^^^ (x >>> 3)

/-- SHA-256 small sigma 1. -/
def sigmaSmall1 (x : Nat) : Nat := rotr32 17 x ^^^ rotr32 19 x ^^^ (x >>> 10)

/-- The 64 SHA-256 round constants (FIPS 180-4 §4.2.2), written in decimal. -/
def sha256K : List Nat :=
  [1116352408, 1899447441, 3049323471, 3921009573, 961987163,
   1508970993, 2453635748, 2870763221, 3624381080, 310598401,
   607225278, 1426881987, 1925078388, 2162078206, 2614888103,
   3248222580, 3835390401, 4022224774, 264347078, 604807628,
   770255983, 1249150122, 1555081692, 1996064986, 2554220882,
   2821834349, 2952996808, 3210313671, 3336571891, 3584528711,
   113926993, 338241895, 666307205, 773529912, 1294757372,
   1396182291, 1695183700, 1986661051, 2177026350, 2456956037,
   2730485921, 2820302411, 3259730800, 3345764771, 3516065817,
   3600352804, 4094571909, 275423344, 430227734, 506948616,
   659060556, 883997877, 958139571, 1322822218, 1537002063,
   1747873779, 1955562222, 2024104815, 2227730452, 2361852424,
   2428436474, 2756734187, 3204031479, 3329325298]

/-- The SHA-256 initial hash state (FIPS 180-4 §5.3.3), written in decimal. -/
def sha256H0 : List Nat :=
  [1779033703, 3144134277, 1013904242, 2773480762,
   1359893119, 2600822924, 528734635, 1541459225]

/-- A natural number as 8 big-endian bytes (the SHA-256 length field). -/
def be8 (n : Nat) : List Nat :=
  [56, 48, 40, 32, 24, 16, 8, 0].map fun s => (n >>> s) &&& 255

/-- SHA-256 message padding: `0x80`, zeros to 56 mod 64, then the bit length. -/
def sha256pad (msg : List Nat) : List Nat :=
  msg ++ [128] ++ List.replicate ((64 + 55 - msg.length % 64) % 64) 0
      ++ be8 (msg.length * 8)

/-- Split a byte list into 64-byte chunks. -/
def chunks64 (l : List Nat) : List (List Nat) :=
  if l = [] then [] else l.take 64 :: chunks64 (l.drop 64)
termination_by l.length
decreasing_by
  simp only [List.length_drop]
  cases l with
  | nil => simp_all
  | cons a t => simp only [List.length_cons]; omega

/-- Group bytes into big-endian 32-bit words. -/
def bytesToWords : List Nat → List Nat
  | b0 :: b1 :: b2 :: b3 :: rest =>
      (((b0 * 256 + b1) * 256 + b2) * 256 + b3) :: bytesToWords rest
  | _ => []

/-- Extend the 16 chunk words to the 64-entry message schedule. -/
def schedule (ws : List Nat) : List Nat :=
  (List.range 48).foldl
    (fun acc _ =>
      let n := acc.length
      acc ++ [w32 (acc.getD (n - 16) 0 + sigmaSmall0 (acc.getD (n - 15) 0)
                   + acc.getD (n - 7) 0 + sigmaSmall1 (acc.getD (n - 2) 0))])
    ws

/-- One SHA-256 compression round on the 8-word working state. -/
def sha256round (st : List Nat) (kw : Nat × Nat) : List Nat :=
  let a := st.getD 0 0
  let b := st.getD 1 0
  let c := st.getD 2 0
  let d := st.getD 3 0
  let e := st.getD 4 0
  let f := st.getD 5 0
  let g := st.getD 6 0
  let h := st.getD 7 0
  let t1 := w32 (h + sigmaBig1 e + chooseFn e f g + kw.1 + kw.2)
  let t2 := w32 (sigmaBig0 a + majFn a b c)
  [w32 (t1 + t2), a, b, c, w32 (d + t1), e, f, g]

/-- Compress one 64-byte chunk into the running 8-word hash state. -/
def sha256compress (h0 : List Nat) (chunk : List Nat) : List Nat :=
  let ws := schedule (bytesToWords chunk)
  let st := (sha256K.zip ws).foldl sha256round h0
  (h0.zip st).map fun p => w32 (p.1 + p.2)

/-- SHA-256 of a byte list, as the 8 final 32-bit hash words. -/
def sha256words (msg : List Nat) : List Nat :=
  (chunks64 (sha256pad msg)).foldl sha256compress sha256H0

/-- The lowercase hexadecimal digits. -/
def hexChars : List Char := "0123456789abcdef".toList

/-- One hex digit. -/
def hexDigit (n : Nat) : Char := hexChars.getD n '0'

/-- A 32-bit word as 8 hex characters, most significant nibble first. -/
def wordToHex (w : Nat) : List Char :=
  [28, 24, 20, 16, 12, 8, 4, 0].map fun s => hexDigit ((w >>> s) &&& 15)

/-- `hashlib.sha256(msg).hexdigest()` as a list of 64 hex characters. -/
def sha256hexChars (msg : List Nat) : List Char :=
  (sha256words msg).foldr (fun w acc => wordToHex w ++ acc) []

/-- UTF-8 encoding of one character. -/
def utf8Char (c : Char) : List Nat :=
  let n := c.toNat
  if n < 128 then [n]
  else if n < 2048 then [192 + n / 64, 128 + n % 64]
  else if n < 65536 then [224 + n / 4096, 128 + (n / 64) % 64, 128 + n % 64]
  else [240 + n / 262144, 128 + (n / 4096) % 64, 128 + (n / 64) % 64,
        128 + n % 64]

/-- `str.encode()`: UTF-8 bytes of a string. -/
def utf8Bytes (s : String) : List Nat := (s.data.map utf8Char).flatten

/-! ## Python JSON values and `json.dumps` -/

/-- A Python value as the `json` module sees it.  Python `int` and `float`
are distinct JSON-serialization-wise (`1` vs `1.0`), so they get distinct
constructors; floats are modelled as rationals. -/
inductive PyJson where
  | null : PyJson
  | bool (b : Bool) : PyJson
  | int (i : Int) : PyJson
  | float (q : ℚ) : PyJson
  | str (s : String) : PyJson
  | list (xs : List PyJson) : PyJson
  | obj (kvs : List (String × PyJson)) : PyJson

/-- A 16-bit value as 4 lowercase hex characters. -/
def hex4 (n : Nat) : List Char := [12, 8, 4, 0].map fun s => hexDigit ((n >>> s) &&& 15)

/-- JSON escaping of one character, `ensure_ascii` style: quote, backslash and
the short escapes, `\uXXXX` for other control or non-ASCII characters
(surrogate pairs above the BMP), everything in `0x20`–`0x7e` verbatim. -/
def jsonEscapeChar (c : Char) : List Char :=
  let n := c.toNat
  if c = '"' then ['\\', '"']
  else if c = '\\' then ['\\', '\\']
  else if n = 8 then ['\\', 'b']
  else if n = 12 then ['\\', 'f']
  else if n = 10 then ['\\', 'n']
  else if n = 13 then ['\\', 'r']
  else if n = 9 then ['\\', 't']
  else if n < 32 ∨ n > 126 then
    if n < 65536 then '\\' :: 'u' :: hex4 n
    else
      let m := n - 65536
      ('\\' :: 'u' :: hex4 (55296 + m / 1024)) ++ ('\\' :: 'u' :: hex4 (56320 + m % 1024))
  else [c]

/-- A JSON string literal: quoted and escaped. -/
def jsonQuote (s : String) : String :=
  "\"" ++ String.mk ((s.data.map jsonEscapeChar).flatten) ++ "\""

/-- Decimal digits of `m` left-padded with zeros to width `k`. -/
def padDigits (k m : Nat) : String :=
  let s := toString m
  String.mk (List.replicate (k - s.length) '0') ++ s

/-- The least number of decimal places (up to 30) that writes `q` exactly. -/
def decPlaces (q : ℚ) : Option Nat :=
  (List.range 31).find? fun k => (q * (10 : ℚ) ^ k).den = 1

/-- `repr` of a Python float.  Integral values print as `n.0`; other values
with a terminating decimal expansion print that expansion.  (Python prints
the shortest round-tripping decimal of the IEEE-754 double; for the exact
dyadic rationals that arise here the two agree.  The final fallback for a
non-terminating rational is a deterministic placeholder never reached by
float-valued data; no verified property depends on the digit string.) -/
def pyFloatRepr (q : ℚ) : String :=
  if q.den = 1 then toString q.num ++ ".0"
  else
    match decPlaces q with
    | some k =>
        let sign := if q < 0 then "-" else ""
        let n := (|q| * (10 : ℚ) ^ k).num.toNat
        sign ++ toString (n / 10 ^ k) ++ "." ++ padDigits k (n % 10 ^ k)
    | none => toString q.num ++ "div" ++ toString q.den

mutual

/-- `json.dumps(v, sort_keys=True)` with the default separators `", "` and
`": "`.  Every object the embedded program serializes is built with its keys
already in sorted codepoint order (see `txJson` / `blockJson`), which is
exactly the order `sort_keys=True` emits, so the serializer writes keys in
the order given. -/
def dumps : PyJson → String
  | .null => "null"
  | .bool true => "true"
  | .bool false => "false"
  | .int i => toString i
  | .float q => pyFloatRepr q
  | .str s => jsonQuote s
  | .list xs => "[" ++ dumpsList xs ++ "]"
  | .obj kvs => "\x7b" ++ dumpsObj kvs ++ "\x7d"

/-- Serialize list elements separated by `", "`. -/
def dumpsList : List PyJson → String
  | [] => ""
  | [x] => dumps x
  | x :: y :: rest => dumps x ++ ", " ++ dumpsList (y :: rest)

/-- Serialize object entries separated by `", "`, keys with `": "`. -/
def dumpsObj : List (String × PyJson) → String
  | [] => ""
  | [(k, v)] => jsonQuote k ++ ": " ++ dumps v
  | (k, v) :: p :: rest => jsonQuote k ++ ": " ++ dumps v ++ ", " ++ dumpsObj (p :: rest)

end

/-- The keys of a JSON object (empty for non-objects). -/
def jsonObjKeys : PyJson → List String
  | .obj kvs => kvs.map Prod.fst
  | _ => []

/-! ## The ledger data model (`app.py`, `Blockchain`) -/

/-- A transaction dict as built by `Blockchain.new_transaction`:
`{'sender': …, 'recipient': …, 'amount': float(amount), 'timestamp': time.time()}`. -/
structure Tx where
  sender : String
  recipient : String
  amount : ℚ
  timestamp : ℚ
deriving DecidableEq, Repr

/-- A block dict as built by `Blockchain.new_block`: exactly the six keys
`index`, `timestamp`, `transactions`, `proof`, `previous_hash`, `note`.
This variant stores no `hash` field on the block itself. -/
structure Block where
  index : Nat
  timestamp : ℚ
  transactions : List Tx
  proof : Int
  previous_hash : String
  note : String
deriving DecidableEq, Repr

/-- The `Blockchain` object state: the sealed chain, the pending
(`current_transactions`) batch, and the proof-of-work difficulty. -/
structure Blockchain where
  chain : List Block
  current_transactions : List Tx
  difficulty : Nat
deriving DecidableEq, Repr

/-- A transaction as `json.dumps(…, sort_keys=True)` serializes it: keys in
sorted codepoint order (`amount`, `recipient`, `sender`, `timestamp`). -/
def txJson (tx : Tx) : PyJson :=
  .obj [("amount", .float tx.amount), ("recipient", .str tx.recipient),
        ("sender", .str tx.sender), ("timestamp", .float tx.timestamp)]

/-- A block as `json.dumps(…, sort_keys=True)` serializes it: keys in sorted
codepoint order (`index`, `note`, `previous_hash`, `proof`, `timestamp`,
`transactions`). -/
def blockJson (block : Block) : PyJson :=
  .obj [("index", .int block.index), ("note", .str block.note),
        ("previous_hash", .str block.previous_hash), ("proof", .int block.proof),
        ("timestamp", .float block.timestamp),
        ("transactions", .list (block.transactions.map txJson))]

/-- `Blockchain.hash` (staticmethod): SHA-256 hex digest of the sorted-key
JSON serialization of the block. -/
def Blockchain.hash (block : Block) : String :=
  String.mk (sha256hexChars (utf8Bytes (dumps (blockJson block))))

/-- `Blockchain.new_block(proof, previous_hash, note)`, with `time.time()`
threaded in as `now`.  Mirrors the Python truthiness of
`previous_hash or self.hash(self.chain[-1])`: a `None` or empty-string
argument falls back to the hash of the last block, and the call fails
(Python would raise `IndexError` on `chain[-1]`) when that fallback is taken
on an empty chain.  On success it seals the pending batch into the new block,
clears `current_transactions`, and appends the block to the chain. -/
def Blockchain.new_block (bc : Blockchain) (proof : Int)
    (previous_hash : Option String) (note : String) (now : ℚ) :
    Option (Blockchain × Block) :=
  let fallback : Option String := (bc.chain.getLast?).map Blockchain.hash
  let phv : Option String :=
    match previous_hash with
    | some s => if s = "" then fallback else some s
    | none => fallback
  match phv with
  | none => none
  | some p =>
      let block : Block :=
        { index := bc.chain.length + 1, timestamp := now,
          transactions := bc.current_transactions, proof := proof,
          previous_hash := p, note := note }
      some ({ bc with
              chain := bc.chain ++ [block],
              current_transactions := [] }, block)

/-- `Blockchain.__init__(difficulty)`: empty chain and pending batch, then the
genesis call `new_block(proof=100, previous_hash='1', note="Genesis Block")`.
The `none` branch is unreachable: the genesis call passes the truthy sentinel
`'1'`, so `new_block` always succeeds there. -/
def Blockchain.init (difficulty : Nat) (t0 : ℚ) : Blockchain :=
  match Blockchain.new_block ⟨[], [], difficulty⟩ 100 (some "1") "Genesis Block" t0 with
  | some (bc, _) => bc
  | none => ⟨[], [], difficulty⟩

/-- `Blockchain.new_transaction(sender, recipient, amount)`: appends the
transaction dict to `current_transactions` and returns the index the next
sealed block will have (`last_block['index'] + 1 if self.chain else 1`). -/
def Blockchain.new_transaction (bc : Blockchain) (sender recipient : String)
    (amount now : ℚ) : Blockchain × Nat :=
  let tx : Tx := { sender := sender, recipient := recipient,
                   amount := amount, timestamp := now }
  ({ bc with current_transactions := bc.current_transactions ++ [tx] },
   match bc.chain.getLast? with
   | some b => b.index + 1
   | none => 1)

/-- `Blockchain.valid_proof(last_proof, proof)`: the first `difficulty` hex
characters of `sha256(f'{last_proof}{proof}')` are all `'0'`.  The Python
method reads `self.difficulty`; it is passed explicitly here. -/
def Blockchain.valid_proof (difficulty : Nat) (last_proof proof : Int) : Bool :=
  (sha256hexChars (utf8Bytes (toString last_proof ++ toString proof))).take difficulty
    == List.replicate difficulty '0'

/-- `Blockchain.proof_of_work(last_proof)`: the Python `while` loop tries
`proof = 0, 1, 2, …` and returns the first nonce accepted by `valid_proof`.
The loop terminates exactly when some nonce is accepted, so the embedding
takes that existence as a hypothesis and returns the least such nonce. -/
def Blockchain.proof_of_work (difficulty : Nat) (last_proof : Int)
    (h : ∃ p : Nat, Blockchain.valid_proof difficulty last_proof p = true) : Nat :=
  Nat.find h

/-- The loop body of `compute_balance`: add the amount when the recipient
matches, then subtract it when the sender matches. -/
def balStep (address : String) (balance : ℚ) (tx : Tx) : ℚ :=
  let balance := if tx.recipient = address then balance + tx.amount else balance
  if tx.sender = address then balance - tx.amount else balance

/-- `Blockchain.compute_balance(address)`: fold `balStep` over every sealed
block's transactions, then over the pending batch. -/
def Blockchain.compute_balance (bc : Blockchain) (address : String) : ℚ :=
  let b1 := bc.chain.foldl (fun bal block => block.transactions.foldl (balStep address) bal) 0
  bc.current_transactions.foldl (balStep address) b1

/-- A transaction copy as returned by `Blockchain.all_transactions`: the
transaction fields plus the block/pending metadata the method attaches. -/
structure TxMeta where
  sender : String
  recipient : String
  amount : ℚ
  timestamp : ℚ
  block_index : Option Nat
  block_timestamp : Option ℚ
  status : String
deriving DecidableEq, Repr

/-- `Blockchain.all_transactions()`: every sealed transaction tagged
`confirmed` with its block's index and timestamp, followed by every pending
transaction tagged `pending`. -/
def Blockchain.all_transactions (bc : Blockchain) : List TxMeta :=
  (bc.chain.map fun block =>
    block.transactions.map fun tx =>
      { sender := tx.sender, recipient := tx.recipient, amount := tx.amount,
        timestamp := tx.timestamp, block_index := some block.index,
        block_timestamp := some block.timestamp, status := "confirmed" }).flatten
  ++ bc.current_transactions.map fun tx =>
      { sender := tx.sender, recipient := tx.recipient, amount := tx.amount,
        timestamp := tx.timestamp, block_index := none,
        block_timestamp := none, status := "pending" }

/-- `extract_addresses(tx_list)`: the distinct senders and recipients.  The
Python code accumulates into a `set` (iteration order unspecified) and drops
`None`; in this model every transaction carries both fields, and the order is
fixed by `List.dedup`.  The verified properties use only membership. -/
def extract_addresses (tx_list : List TxMeta) : List String :=
  ((tx_list.map fun tx => [tx.sender, tx.recipient]).flatten).dedup

/-- One row of the `address_summary` table. -/
structure AddressRow where
  address : String
  balance : ℚ
  received_total : ℚ
  sent_total : ℚ
  tx_count_in : Nat
  tx_count_out : Nat
  tx_count_total : Nat
deriving DecidableEq, Repr

/-- The row `address_summary` builds for one address from the transaction
list `txs`. -/
def summaryRow (blockchain : Blockchain) (txs : List TxMeta) (addr : String) :
    AddressRow :=
  { address := addr
    balance := blockchain.compute_balance addr
    received_total := ((txs.filter fun t => t.recipient = addr).map TxMeta.amount).sum
    sent_total := ((txs.filter fun t => t.sender = addr).map TxMeta.amount).sum
    tx_count_in := (txs.filter fun t => t.recipient = addr).length
    tx_count_out := (txs.filter fun t => t.sender = addr).length
    tx_count_total := (txs.filter fun t => t.recipient = addr).length
      + (txs.filter fun t => t.sender = addr).length }

/-- `address_summary(blockchain)`: one row per extracted address with its
replayed balance, totals and counts, sorted by balance descending.  (pandas'
`sort_values` tie order is unspecified; an insertion sort is used here.  The
verified properties use only row membership.) -/
def address_summary (blockchain : Blockchain) : List AddressRow :=
  let txs := blockchain.all_transactions
  let rows := (extract_addresses txs).map (summaryRow blockchain txs)
  rows.insertionSort fun x y => y.balance ≤ x.balance

/-- `total_in_circulation(blockchain)`: `0.0` for an empty summary, else the
sum of the `balance` column. -/
def total_in_circulation (blockchain : Blockchain) : ℚ :=
  let df := address_summary blockchain
  if df.isEmpty then 0 else (df.map AddressRow.balance).sum

/-- The chain-import branch of the file-upload handler (app.py lines
318–327): if the parsed upload is a JSON list, replace `bc.chain` with it
wholesale (the elements are *not* inspected) and clear the pending batch;
otherwise report an error, in which case the ledger state is untouched. -/
def chainImport (loaded : PyJson) (st : List PyJson × List Tx) :
    Except String (List PyJson × List Tx) :=
  match loaded, st with
  | .list blocks, _ => .ok (blocks, [])
  | _, _ => .error "Uploaded JSON must be a list of blocks."

/-- Modelled from the spec: a "block-shaped record" per §6 is an object with
the fields `{index, timestamp, transactions, proof, previous_hash, hash?}`
(`hash` optional).  `app.py` defines no such check; this predicate only
states claim C9. -/
def isBlockShaped (v : PyJson) : Bool :=
  match v with
  | .obj kvs =>
      ["index", "timestamp", "transactions", "proof", "previous_hash"].all
        fun k => (kvs.map Prod.fst).contains k
  | _ => false

/-- Pairwise link check: every block after the first carries the digest of
its immediate predecessor. -/
def chainLinksOk : List Block → Bool
  | [] => true
  | [_] => true
  | a :: b :: rest => (b.previous_hash == Blockchain.hash a) && chainLinksOk (b :: rest)

/-- Modelled from the spec: `app.py` implements no `validate()` operation;
§4.6 specifies, for every non-genesis block `i`, the checks
`chain[i].previous_hash == chain[i-1].hash` and
`chain[i].hash == hash(canonicalize(chain[i]))`.  This variant's blocks store
no own-`hash` field, so only the first (link) check is expressible; the
stored-hash check has no field to read.  `validate` performs the link check
for every adjacent pair and is trivially true on a genesis-only chain. -/
def Blockchain.validate (bc : Blockchain) : Bool := chainLinksOk bc.chain

/-- The ledger states reachable through the app: construction, the
transaction form (`new_transaction` with arbitrary fields), and the mining
handler (app.py lines 231–237), which mints one coin to the node id with
sender `"0"` and then seals with `previous_hash=None`.  The handler seals
with the nonce found by `proof_of_work`; the invariants below hold for every
proof value, so the constructor quantifies over it. -/
inductive Reachable : Blockchain → Prop where
  | init (difficulty : Nat) (t0 : ℚ) : Reachable (Blockchain.init difficulty t0)
  | submit (bc : Blockchain) (sender recipient : String) (amount now : ℚ) :
      Reachable bc → Reachable (bc.new_transaction sender recipient amount now).1
  | mine (bc : Blockchain) (node_id note : String) (proof : Int) (t1 t2 : ℚ)
      (bc' : Blockchain) (blk : Block) :
      Reachable bc →
      ((bc.new_transaction "0" node_id 1 t1).1).new_block proof none note t2
        = some (bc', blk) →
      Reachable bc'

/-! ## Specification-side definitions -/

/-- The genesis block the constructor seals at time `t0`. -/
def genesisBlock (t0 : ℚ) : Block :=
  { index := 1, timestamp := t0, transactions := [], proof := 100,
    previous_hash := "1", note := "Genesis Block" }

/-- The signed contribution of one transaction to an address's balance:
`+amount` when the recipient matches, `-amount` when the sender matches. -/
def txContribution (address : String) (tx : Tx) : ℚ :=
  (if tx.recipient = address then tx.amount else 0)
    - (if tx.sender = address then tx.amount else 0)

/-- Every transaction a balance replay visits: each sealed block's batch in
chain order, then the pending batch. -/
def Blockchain.replayTxs (bc : Blockchain) : List Tx :=
  (bc.chain.map Block.transactions).flatten ++ bc.current_transactions

/-- The arguments of one `new_transaction` call. -/
structure Submission where
  sender : String
  recipient : String
  amount : ℚ
  now : ℚ

/-- The transaction dict a submission turns into. -/
def Submission.toTx (s : Submission) : Tx :=
  { sender := s.sender, recipient := s.recipient, amount := s.amount,
    timestamp := s.now }

/-- Run a sequence of `new_transaction` calls. -/
def submitAll (bc : Blockchain) (subs : List Submission) : Blockchain :=
  subs.foldl (fun b s => (b.new_transaction s.sender s.recipient s.amount s.now).1) bc

/-- Each block after the first carries the digest of its predecessor. -/
def hashLinked (chain : List Block) : Prop :=
  List.Chain' (fun a b => b.previous_hash = Blockchain.hash a) chain

/-- The projection of a replayed transaction a balance query looks at. -/
def txKey (s r : String) (a : ℚ) : String × String × ℚ := (s, r, a)

/-! ## Concrete demonstration states -/

/-- A freshly constructed ledger (difficulty 3, construction time 0). -/
def bcA : Blockchain := Blockchain.init 3 0

/-- `bcA` after the mining handler's mint transaction to node id `"N"`. -/
def bcB : Blockchain := (bcA.new_transaction "0" "N" 1 0).1

/-- The block the mining handler seals on `bcB` with proof 7 at time 0. -/
def blkC : Block :=
  { index := 2, timestamp := 0, transactions := bcB.current_transactions,
    proof := 7, previous_hash := Blockchain.hash (genesisBlock 0), note := "" }

/-- The ledger after that mining step: genesis plus one mined block. -/
def bcC : Blockchain :=
  { chain := bcA.chain ++ [blkC], current_transactions := [], difficulty := 3 }

/-- A ledger whose pending batch holds one mint transaction (sender `"0"`). -/
def bcMint : Blockchain := ((Blockchain.init 3 0).new_transaction "0" "X" 1 0).1

/-- The block sealed by submitting `A → B : 5` to a fresh ledger and sealing
with proof 7 at time 0. -/
def blkC2 : Block :=
  { index := 2, timestamp := 0,
    transactions := [{ sender := "A", recipient := "B", amount := 5, timestamp := 0 }],
    proof := 7, previous_hash := Blockchain.hash (genesisBlock 0), note := "" }

/-- The ledger state right after that seal. -/
def bcC2 : Blockchain :=
  { chain := bcA.chain ++ [blkC2], current_transactions := [], difficulty := 3 }

/-! ## Helper lemmas -/

theorem balStep_eq (address : String) (b : ℚ) (tx : Tx) :
    balStep address b tx = b + txContribution address tx := by
  unfold balStep txContribution
  rcases eq_or_ne tx.recipient address with h1 | h1 <;>
    rcases eq_or_ne tx.sender address with h2 | h2 <;>
    (simp [h1, h2]; try ring)

theorem foldl_balStep (address : String) (l : List Tx) (b : ℚ) :
    l.foldl (balStep address) b = b + (l.map (txContribution address)).sum := by
  induction l generalizing b with
  | nil => simp
  | cons t ts ih => rw [List.foldl_cons, ih, balStep_eq]; simp; ring

theorem foldl_blocks_balStep (address : String) (blocks : List Block) (b : ℚ) :
    blocks.foldl (fun bal block => block.transactions.foldl (balStep address) bal) b
      = b + (((blocks.map Block.transactions).flatten).map (txContribution address)).sum := by
  induction blocks generalizing b with
  | nil => simp
  | cons blk bs ih => rw [List.foldl_cons, ih, foldl_balStep]; simp; ring

/-- Inversion of a successful `new_block` call: the sealed block's content
fields and the successor state. -/
theorem new_block_some (bc : Blockchain) (p : Int) (ph : Option String)
    (note : String) (now : ℚ) (bc' : Blockchain) (blk : Block)
    (h : bc.new_block p ph note now = some (bc', blk)) :
    blk.index = bc.chain.length + 1 ∧ blk.timestamp = now
    ∧ blk.transactions = bc.current_transactions ∧ blk.proof = p
    ∧ blk.note = note
    ∧ bc'.chain = bc.chain ++ [blk] ∧ bc'.current_transactions = []
    ∧ bc'.difficulty = bc.difficulty := by
  unfold Blockchain.new_block at h
  rcases ph with _ | s
  · rcases hl : bc.chain.getLast? with _ | last
    · simp [hl] at h
    · simp only [hl, Option.map_some', Option.some.injEq, Prod.mk.injEq] at h
      obtain ⟨h1, h2⟩ := h
      subst h1; subst h2
      exact ⟨rfl, rfl, rfl, rfl, rfl, rfl, rfl, rfl⟩
  · by_cases hs : s = ""
    · subst hs
      rcases hl : bc.chain.getLast? with _ | last
      · simp [hl] at h
      · simp [hl] at h
        obtain ⟨h1, h2⟩ := h
        subst h1; subst h2
        exact ⟨rfl, rfl, rfl, rfl, rfl, rfl, rfl, rfl⟩
    · simp only [if_neg hs, Option.some.injEq, Prod.mk.injEq] at h
      obtain ⟨h1, h2⟩ := h
      subst h1; subst h2
      exact ⟨rfl, rfl, rfl, rfl, rfl, rfl, rfl, rfl⟩

/-- A seal with `previous_hash=None` links the new block to the digest of the
last sealed block. -/
theorem new_block_prev_hash (bc : Blockchain) (p : Int) (note : String)
    (now : ℚ) (bc' : Blockchain) (blk : Block)
    (h : bc.new_block p none note now = some (bc', blk)) :
    ∃ last, bc.chain.getLast? = some last
      ∧ blk.previous_hash = Blockchain.hash last := by
  unfold Blockchain.new_block at h
  rcases hl : bc.chain.getLast? with _ | last
  · simp [hl] at h
  · refine ⟨last, rfl, ?_⟩
    simp only [hl, Option.map_some', Option.some.injEq, Prod.mk.injEq] at h
    obtain ⟨h1, h2⟩ := h
    subst h2; rfl

theorem submitAll_chain (bc : Blockchain) (subs : List Submission) :
    (submitAll bc subs).chain = bc.chain := by
  induction subs generalizing bc with
  | nil => rfl
  | cons s rest ih =>
      have hstep : submitAll bc (s :: rest)
          = submitAll ((bc.new_transaction s.sender s.recipient s.amount s.now).1) rest := rfl
      rw [hstep, ih]
      rfl

theorem submitAll_pending (bc : Blockchain) (subs : List Submission) :
    (submitAll bc subs).current_transactions
      = bc.current_transactions ++ subs.map Submission.toTx := by
  induction subs generalizing bc with
  | nil => simp [submitAll]
  | cons s rest ih =>
      have hstep : submitAll bc (s :: rest)
          = submitAll ((bc.new_transaction s.sender s.recipient s.amount s.now).1) rest := rfl
      rw [hstep, ih]
      simp [Blockchain.new_transaction, Submission.toTx]

/-! ## The claims -/

/-- The balance fold equals the replay sum (shared between C1 and C10). -/
theorem compute_balance_eq_sum (bc : Blockchain) (address : String) :
    bc.compute_balance address
      = (bc.replayTxs.map (txContribution address)).sum := by
  show bc.current_transactions.foldl (balStep address)
      (bc.chain.foldl (fun bal block => block.transactions.foldl (balStep address) bal) 0)
    = _
  rw [foldl_balStep, foldl_blocks_balStep]
  simp [Blockchain.replayTxs]

/-- C1: for every ledger state and address, `compute_balance` returns exactly
the sum, over all transactions in all sealed blocks of the chain plus the
current pending batch, of `+amount` for each transaction whose recipient is
the address and `-amount` for each whose sender is. -/
theorem compute_balance_replay (bc : Blockchain) (address : String) :
    bc.compute_balance address
      = (bc.replayTxs.map (txContribution address)).sum :=
  compute_balance_eq_sum bc address

/-- C2: after any sequence of `new_transaction` submissions, a successful
`new_block` seals exactly the pending batch as it stood at that moment, in
order, empties the pending batch, and grows the chain by exactly one block. -/
theorem new_block_seals_pending (bc : Blockchain) (subs : List Submission)
    (p : Int) (ph : Option String) (note : String) (now : ℚ)
    (bc' : Blockchain) (blk : Block)
    (h : (submitAll bc subs).new_block p ph note now = some (bc', blk)) :
    blk.transactions = bc.current_transactions ++ subs.map Submission.toTx
    ∧ bc'.current_transactions = []
    ∧ bc'.chain = (submitAll bc subs).chain ++ [blk]
    ∧ bc'.chain.length = (submitAll bc subs).chain.length + 1 := by
  obtain ⟨_, _, h3, _, _, h6, h7, _⟩ := new_block_some _ _ _ _ _ _ _ h
  refine ⟨by rw [h3, submitAll_pending], h7, h6, by rw [h6]; simp⟩

/-- Witness for C2: a fresh ledger, one submission `A → B : 5`, sealed with
proof 7. -/
theorem new_block_seals_pending_witness :
    blkC2.transactions = bcA.current_transactions
        ++ ([⟨"A", "B", 5, 0⟩] : List Submission).map Submission.toTx
    ∧ bcC2.current_transactions = []
    ∧ bcC2.chain = (submitAll bcA [⟨"A", "B", 5, 0⟩]).chain ++ [blkC2]
    ∧ bcC2.chain.length = (submitAll bcA [⟨"A", "B", 5, 0⟩]).chain.length + 1 :=
  new_block_seals_pending bcA [⟨"A", "B", 5, 0⟩] 7 none "" 0 bcC2 blkC2 rfl

/-- C7 counterexample: the genesis block of a freshly constructed ledger has
index 1, not 0. -/
theorem genesis_index_is_one :
    (Blockchain.init 3 0).chain.map Block.index = [1] ∧ (1 : Nat) ≠ 0 :=
  ⟨rfl, one_ne_zero⟩

/-- C7 (amended): at construction the chain holds exactly the genesis block,
with proof 100, previous-hash sentinel `"1"`, an empty transaction set and
index 1 (the code indexes blocks from 1), and the pending batch is empty. -/
theorem init_genesis_block (difficulty : Nat) (t0 : ℚ) :
    (Blockchain.init difficulty t0).chain = [genesisBlock t0]
    ∧ (Blockchain.init difficulty t0).current_transactions = []
    ∧ (genesisBlock t0).proof = 100
    ∧ (genesisBlock t0).previous_hash = "1"
    ∧ (genesisBlock t0).transactions = []
    ∧ (genesisBlock t0).index = 1 :=
  ⟨rfl, rfl, rfl, rfl, rfl, rfl⟩

/-- C9 counterexample: a JSON list whose sole element is not block-shaped is
accepted and replaces the chain, instead of failing with a malformed-input
error as the claim requires. -/
theorem chain_import_accepts_non_block_records :
    isBlockShaped (PyJson.int 1) = false
    ∧ chainImport (PyJson.list [PyJson.int 1]) ([], [])
        = Except.ok ([PyJson.int 1], []) :=
  ⟨rfl, rfl⟩

/-- C9 (amended): the import replaces the chain wholesale and clears the
pending batch whenever the parsed upload is a JSON list — its elements are
not inspected; only a non-list upload fails, with the ledger untouched. -/
theorem chain_import_list_only (loaded : PyJson) (st : List PyJson × List Tx) :
    (∀ blocks, loaded = PyJson.list blocks →
        chainImport loaded st = Except.ok (blocks, []))
    ∧ ((∀ blocks, loaded ≠ PyJson.list blocks) →
        chainImport loaded st
          = Except.error "Uploaded JSON must be a list of blocks.") := by
  constructor
  · rintro _ rfl
    rfl
  · intro hnb
    cases loaded with
    | list blocks => exact absurd rfl (hnb blocks)
    | null => rfl
    | bool b => rfl
    | int i => rfl
    | float q => rfl
    | str s => rfl
    | obj kvs => rfl

/-- Witness for C9: a singleton JSON list is imported wholesale; a JSON
`null` upload is rejected. -/
theorem chain_import_list_only_witness :
    chainImport (PyJson.list [PyJson.null]) ([], [])
        = Except.ok ([PyJson.null], [])
    ∧ chainImport PyJson.null ([], [])
        = Except.error "Uploaded JSON must be a list of blocks." :=
  ⟨(chain_import_list_only (PyJson.list [PyJson.null]) ([], [])).1 [PyJson.null] rfl,
   (chain_import_list_only PyJson.null ([], [])).2 (fun _ h => PyJson.noConfusion h)⟩

/-- The chain of a reachable ledger is hash-linked: every later block stores
the digest of its immediate predecessor. -/
theorem reachable_hashLinked (bc : Blockchain) (h : Reachable bc) :
    hashLinked bc.chain := by
  induction h with
  | init d t0 =>
      have hc : (Blockchain.init d t0).chain = [genesisBlock t0] := rfl
      rw [hashLinked, hc]
      exact List.chain'_singleton _
  | submit bc s r a now hbc ih => exact ih
  | mine bc nid note p t1 t2 bc' blk hbc hseal ih =>
      obtain ⟨_, _, _, _, _, hchain, _, _⟩ := new_block_some _ _ _ _ _ _ _ hseal
      obtain ⟨last, hlast, hprev⟩ := new_block_prev_hash _ _ _ _ _ _ hseal
      rw [hashLinked, hchain]
      refine List.Chain'.append ih (List.chain'_singleton _) ?_
      intro x hx y hy
      rw [Option.mem_def] at hx hy
      rw [hlast] at hx
      cases hx
      cases hy
      exact hprev

/-- A hash-linked chain passes the pairwise link check. -/
theorem chainLinksOk_of_hashLinked (l : List Block)
    (h : List.Chain' (fun a b => b.previous_hash = Blockchain.hash a) l) :
    chainLinksOk l = true := by
  induction l with
  | nil => rfl
  | cons a t ih =>
      cases t with
      | nil => rfl
      | cons b r =>
          rw [List.chain'_cons] at h
          simp [chainLinksOk, h.1, ih h.2]

/-- C4: in every ledger state reachable by construction, submission and
sealing, every block except genesis stores in `previous_hash` the digest of
the immediately preceding block of the chain. -/
theorem reachable_previous_hash_link (bc : Blockchain) (hbc : Reachable bc)
    (i : Nat) (h : i + 1 < bc.chain.length) :
    (bc.chain.get ⟨i + 1, h⟩).previous_hash
      = Blockchain.hash (bc.chain.get ⟨i, Nat.lt_of_succ_lt h⟩) := by
  have hl := reachable_hashLinked bc hbc
  rw [hashLinked, List.chain'_iff_get] at hl
  exact hl i (by omega)

/-- The mining step that builds the two-block demonstration ledger. -/
theorem mineStep_bcC : bcB.new_block 7 none "" 0 = some (bcC, blkC) := rfl

/-- The two-block demonstration ledger is reachable. -/
theorem reach_bcC : Reachable bcC :=
  Reachable.mine bcA "N" "" 7 0 0 bcC blkC (Reachable.init 3 0) mineStep_bcC

/-- Witness for C4: in the mined two-block ledger, the second block stores
the digest of the genesis block. -/
theorem reachable_previous_hash_link_witness :
    (bcC.chain.get ⟨1, by decide⟩).previous_hash
      = Blockchain.hash (bcC.chain.get ⟨0, by decide⟩) :=
  reachable_previous_hash_link bcC reach_bcC 0 (by decide)

/-- C5 counterexample: the freshly sealed genesis block carries no `hash`
field at all — its canonical record has no such key to store a digest in. -/
theorem genesis_block_lacks_hash_field :
    (Blockchain.init 3 0).chain = [genesisBlock 0]
    ∧ "hash" ∉ jsonObjKeys (blockJson (genesisBlock 0)) :=
  ⟨rfl, by decide⟩

/-- C5 (amended): a sealed block stores exactly the six content fields
`index`, `note`, `previous_hash`, `proof`, `timestamp`, `transactions` and no
own-`hash` field; sealing stores no digest on the block, and a block's digest
is computed on demand by `Blockchain.hash`. -/
theorem sealed_block_stores_no_hash (bc : Blockchain) (p : Int)
    (ph : Option String) (note : String) (now : ℚ) (bc' : Blockchain)
    (blk : Block) (_h : bc.new_block p ph note now = some (bc', blk)) :
    jsonObjKeys (blockJson blk)
      = ["index", "note", "previous_hash", "proof", "timestamp", "transactions"]
    ∧ "hash" ∉ jsonObjKeys (blockJson blk) := by
  refine ⟨rfl, ?_⟩
  simp [jsonObjKeys, blockJson]

/-- Witness for C5: the genesis seal performed by the constructor. -/
theorem sealed_block_stores_no_hash_witness :
    jsonObjKeys (blockJson (genesisBlock 0))
      = ["index", "note", "previous_hash", "proof", "timestamp", "transactions"]
    ∧ "hash" ∉ jsonObjKeys (blockJson (genesisBlock 0)) :=
  sealed_block_stores_no_hash ⟨[], [], 3⟩ 100 (some "1") "Genesis Block" 0
    ⟨[genesisBlock 0], [], 3⟩ (genesisBlock 0) rfl

/-- C6 counterexample: the claimed stored-hash check is impossible — the
mined block's canonical record carries no `hash` key for `validate` to
compare against. -/
theorem mined_block_lacks_hash_field :
    "hash" ∉ jsonObjKeys (blockJson blkC) := by decide

/-- C6 (amended, `validate` modelled from the spec): for every non-genesis
block the link check `chain[i].previous_hash == hash(chain[i-1])` holds, so
`validate` returns true on every freshly sealed (reachable, untampered)
chain, trivially including the genesis-only chain. -/
theorem validate_fresh_chain (bc : Blockchain) (hbc : Reachable bc) :
    bc.validate = true :=
  chainLinksOk_of_hashLinked bc.chain (reachable_hashLinked bc hbc)

/-- Witness for C6: the mined two-block ledger validates. -/
theorem validate_fresh_chain_witness : bcC.validate = true :=
  validate_fresh_chain bcC reach_bcC

/-- At difficulty 0 the zero-length prefix check accepts every nonce. -/
theorem pow_exists_d0 : ∃ p : Nat, Blockchain.valid_proof 0 100 p = true :=
  ⟨0, rfl⟩

/-- C3: when some nonce is acceptable, `proof_of_work` returns the smallest
`p ≥ 0` whose digest of `concat(last_proof, p)` has its first `difficulty`
hex characters all `'0'`, and `valid_proof` accepts exactly those nonces. -/
theorem proof_of_work_finds_least (difficulty : Nat) (last_proof : Int)
    (h : ∃ p : Nat, Blockchain.valid_proof difficulty last_proof p = true) :
    Blockchain.valid_proof difficulty last_proof
        (Blockchain.proof_of_work difficulty last_proof h) = true
    ∧ (∀ q : Nat, q < Blockchain.proof_of_work difficulty last_proof h →
        Blockchain.valid_proof difficulty last_proof q = false)
    ∧ (∀ p : Int, Blockchain.valid_proof difficulty last_proof p = true ↔
        (sha256hexChars (utf8Bytes (toString last_proof ++ toString p))).take
            difficulty
          = List.replicate difficulty '0') := by
  refine ⟨Nat.find_spec h, ?_, ?_⟩
  · intro q hq
    simpa using Nat.find_min h hq
  · intro p
    simp [Blockchain.valid_proof]

/-- Witness for C3: at difficulty 0 the search succeeds (on nonce 0) and the
returned nonce is accepted. -/
theorem proof_of_work_finds_least_witness :
    Blockchain.valid_proof 0 100
      (Blockchain.proof_of_work 0 100 pow_exists_d0) = true :=
  (proof_of_work_finds_least 0 100 pow_exists_d0).1

/-- The distinct senders/recipients of a transaction list, by membership. -/
theorem mem_extract_addresses (txs : List TxMeta) (a : String) :
    a ∈ extract_addresses txs ↔ ∃ tx ∈ txs, tx.sender = a ∨ tx.recipient = a := by
  unfold extract_addresses
  rw [List.mem_dedup, List.mem_flatten]
  constructor
  · rintro ⟨l, hl, hal⟩
    rw [List.mem_map] at hl
    obtain ⟨tx, htx, rfl⟩ := hl
    simp only [List.mem_cons, List.not_mem_nil, or_false] at hal
    rcases hal with h | h
    · exact ⟨tx, htx, Or.inl h.symm⟩
    · exact ⟨tx, htx, Or.inr h.symm⟩
  · rintro ⟨tx, htx, h | h⟩
    · exact ⟨[tx.sender, tx.recipient], List.mem_map_of_mem _ htx, by simp [h]⟩
    · exact ⟨[tx.sender, tx.recipient], List.mem_map_of_mem _ htx, by simp [h]⟩

/-- The addresses of the summary rows are a permutation of the extracted
addresses (the sort only reorders them). -/
theorem address_summary_addresses (bc : Blockchain) :
    ((address_summary bc).map AddressRow.address).Perm
      (extract_addresses bc.all_transactions) := by
  unfold address_summary
  refine (List.Perm.map _ (List.perm_insertionSort _ _)).trans ?_
  rw [List.map_map]
  have hcomp : AddressRow.address ∘ summaryRow bc bc.all_transactions = id := by
    funext addr; rfl
  rw [hcomp, List.map_id]

/-- C8 counterexample: with a single pending mint transaction
(`sender = "0"`), the per-address aggregation reports the sentinel address
`"0"` rather than excluding it. -/
theorem address_summary_includes_mint_sentinel :
    "0" ∈ (address_summary bcMint).map AddressRow.address := by
  rw [(address_summary_addresses bcMint).mem_iff, mem_extract_addresses]
  refine ⟨⟨"0", "X", 1, 0, none, none, "pending"⟩, ?_, Or.inl rfl⟩
  have hall : bcMint.all_transactions
      = [⟨"0", "X", 1, 0, none, none, "pending"⟩] := rfl
  rw [hall]
  exact List.mem_singleton.mpr rfl

/-- C8 (amended): the per-address aggregation reports exactly the distinct
addresses appearing as sender or recipient across the sealed chain and the
pending batch — including the mint sentinel `"0"`, which is not excluded. -/
theorem address_summary_reports_all (bc : Blockchain) (a : String) :
    a ∈ (address_summary bc).map AddressRow.address ↔
      ∃ tx ∈ bc.all_transactions, tx.sender = a ∨ tx.recipient = a := by
  rw [(address_summary_addresses bc).mem_iff, mem_extract_addresses]

/-- Summing a pointwise difference of maps splits the sum. -/
theorem sum_map_sub {α : Type} (l : List α) (f g : α → ℚ) :
    (l.map fun x => f x - g x).sum = (l.map f).sum - (l.map g).sum := by
  induction l with
  | nil => simp
  | cons x t ih => simp [ih]; ring

/-- Summing a pointwise addition of maps splits the sum. -/
theorem sum_map_add {α : Type} (l : List α) (f g : α → ℚ) :
    (l.map fun x => f x + g x).sum = (l.map f).sum + (l.map g).sum := by
  induction l with
  | nil => simp
  | cons x t ih => simp [ih]; ring

/-- An indicator sum over a list not containing the index vanishes. -/
theorem sum_map_indicator_zero (t : List String) (x : String) (hx : x ∉ t)
    (v : ℚ) : (t.map fun a => if x = a then v else 0).sum = 0 := by
  induction t with
  | nil => rfl
  | cons b r ih =>
      have hne : ¬ x = b := fun hEq => hx (List.mem_cons.mpr (Or.inl hEq))
      rw [List.map_cons, List.sum_cons, if_neg hne,
        ih (fun hmem => hx (List.mem_cons_of_mem _ hmem))]
      ring

/-- An indicator sum over a duplicate-free list containing the index is the
indicated value. -/
theorem sum_map_indicator (l : List String) (hnd : l.Nodup) (x : String)
    (hx : x ∈ l) (v : ℚ) :
    (l.map fun a => if x = a then v else 0).sum = v := by
  induction l with
  | nil => cases hx
  | cons b t ih =>
      rw [List.map_cons, List.sum_cons]
      rcases List.mem_cons.mp hx with rfl | hxt
      · rw [if_pos rfl, sum_map_indicator_zero t x (List.Nodup.not_mem hnd) v]
        ring
      · have hne : ¬ x = b := fun hEq => List.Nodup.not_mem hnd (hEq ▸ hxt)
        rw [if_neg hne, ih (List.Nodup.of_cons hnd) hxt]
        ring

/-- Over a duplicate-free address list containing both endpoints, one
transaction's contributions cancel. -/
theorem sum_contribution_zero (addrs : List String) (hnd : addrs.Nodup)
    (tx : Tx) (hs : tx.sender ∈ addrs) (hr : tx.recipient ∈ addrs) :
    (addrs.map fun a => txContribution a tx).sum = 0 := by
  have hsplit : (addrs.map fun a => txContribution a tx).sum
      = (addrs.map fun a => if tx.recipient = a then tx.amount else 0).sum
        - (addrs.map fun a => if tx.sender = a then tx.amount else 0).sum :=
    sum_map_sub addrs _ _
  rw [hsplit, sum_map_indicator addrs hnd tx.recipient hr tx.amount,
    sum_map_indicator addrs hnd tx.sender hs tx.amount]
  ring

/-- Exchange the order of the double summation of contributions. -/
theorem sum_sum_contribution_swap (addrs : List String) (txs : List Tx) :
    (addrs.map fun a => (txs.map fun tx => txContribution a tx).sum).sum
      = (txs.map fun tx => (addrs.map fun a => txContribution a tx).sum).sum := by
  induction txs with
  | nil => simp
  | cons tx rest ih =>
      have hsum : (addrs.map fun a => ((tx :: rest).map fun t => txContribution a t).sum).sum
          = (addrs.map fun a =>
              txContribution a tx + (rest.map fun t => txContribution a t).sum).sum := by
        simp
      rw [hsum, sum_map_add, ih]
      simp

/-- The sender/recipient projections of `all_transactions` agree with those
of the replay list. -/
theorem all_transactions_sr (bc : Blockchain) :
    bc.all_transactions.map (fun t => (t.sender, t.recipient))
      = bc.replayTxs.map (fun t => (t.sender, t.recipient)) := by
  unfold Blockchain.all_transactions Blockchain.replayTxs
  simp only [List.map_append, List.map_flatten, List.map_map]
  congr 1
  · refine congrArg List.flatten (List.map_congr_left ?_)
    intro block _
    simp only [Function.comp, List.map_map]
    rfl

/-- Every replayed transaction's endpoints are among the extracted
addresses. -/
theorem replay_endpoints_mem (bc : Blockchain) (tx : Tx)
    (htx : tx ∈ bc.replayTxs) :
    tx.sender ∈ extract_addresses bc.all_transactions
      ∧ tx.recipient ∈ extract_addresses bc.all_transactions := by
  have hmem : (tx.sender, tx.recipient)
      ∈ bc.all_transactions.map (fun t => (t.sender, t.recipient)) := by
    rw [all_transactions_sr]
    exact List.mem_map_of_mem _ htx
  rw [List.mem_map] at hmem
  obtain ⟨t, ht, hpr⟩ := hmem
  have hs : t.sender = tx.sender := congrArg Prod.fst hpr
  have hr : t.recipient = tx.recipient := congrArg Prod.snd hpr
  exact ⟨(mem_extract_addresses _ _).mpr ⟨t, ht, Or.inl hs⟩,
    (mem_extract_addresses _ _).mpr ⟨t, ht, Or.inr hr⟩⟩

/-- The balances column of the summary sums to zero: extracted addresses are
duplicate-free and cover both endpoints of every replayed transaction, so
each transaction cancels. -/
theorem sum_balances_zero (bc : Blockchain) :
    ((address_summary bc).map AddressRow.balance).sum = 0 := by
  have hperm : ((address_summary bc).map AddressRow.balance).Perm
      ((extract_addresses bc.all_transactions).map
        (AddressRow.balance ∘ summaryRow bc bc.all_transactions)) := by
    unfold address_summary
    refine (List.Perm.map _ (List.perm_insertionSort _ _)).trans ?_
    rw [List.map_map]
  rw [hperm.sum_eq]
  have hbal : (AddressRow.balance ∘ summaryRow bc bc.all_transactions)
      = fun addr => bc.compute_balance addr := by
    funext addr; rfl
  rw [hbal]
  have hrepl : (fun addr => bc.compute_balance addr)
      = fun addr => (bc.replayTxs.map (txContribution addr)).sum := by
    funext addr; exact compute_balance_eq_sum bc addr
  rw [hrepl]
  rw [sum_sum_contribution_swap]
  have hzero : ∀ tx ∈ bc.replayTxs,
      ((extract_addresses bc.all_transactions).map
        fun a => txContribution a tx).sum = 0 := by
    intro tx htx
    obtain ⟨hs, hr⟩ := replay_endpoints_mem bc tx htx
    exact sum_contribution_zero _ (List.nodup_dedup _) tx hs hr
  calc ((bc.replayTxs.map fun tx =>
          ((extract_addresses bc.all_transactions).map
            fun a => txContribution a tx).sum).sum)
      = (bc.replayTxs.map fun _ => (0 : ℚ)).sum :=
        congrArg List.sum (List.map_congr_left hzero)
    _ = 0 := by simp

/-- C10: `total_in_circulation` is identically zero — the summed address set
contains every sender and recipient (the mint sentinel `"0"` included), so
each transaction contributes `+amount` and `-amount` to balances inside the
set and the balances cancel. -/
theorem total_in_circulation_eq_zero (bc : Blockchain) :
    total_in_circulation bc = 0 := by
  unfold total_in_circulation
  by_cases hemp : (address_summary bc).isEmpty
  · simp [hemp]
  · simp only [hemp, if_false]
    exact sum_balances_zero bc

end App
